import Mathlib

/-!
# Verification of the omega-arbiter session-orchestration core

Shallow embedding of the TypeScript sources of `thomasdavis/omega-arbiter`:
the message queue (`src/queue/messageQueue.ts`), the session coordinator
(`src/arbiter/coordinator.ts`), the git worktree manager
(`git/worktree.ts`) and the checkpoint protocol (`arbiter/checkpoint.ts`).

Effectful git operations are embedded as pure functions over an explicit
environment describing the outcome of each external git invocation, and
they additionally return the trace of git commands that were issued, so
that frame properties ("never deletes the branch", "no commit is created")
can be stated about the trace.
-/

namespace OmegaArbiter

/-- JS `String.prototype.includes`: substring containment. -/
def strContains (s pat : String) : Bool :=
  decide (pat.toList <:+: s.toList)

/-- JS `String.prototype.trim`: strip leading and trailing whitespace
(embedded over the character list so that it evaluates by kernel
reduction). -/
def jsTrim (s : String) : String :=
  String.mk
    (((s.toList.dropWhile Char.isWhitespace).reverse.dropWhile
      Char.isWhitespace).reverse)

/-! ## Message queue (`src/queue/messageQueue.ts`) -/

/-- The four priority bands of `MessagePriority`. -/
inductive MPriority where
  | urgent
  | high
  | normal
  | low
deriving DecidableEq, Repr

/-- Numeric level of a priority: its index in the array
`['urgent', 'high', 'normal', 'low']` used by `findInsertIndex`
(smaller = more urgent). -/
def priorityLevel : MPriority → Nat
  | .urgent => 0
  | .high => 1
  | .normal => 2
  | .low => 3

/-- A queued message, reduced to the fields the queue ordering logic
inspects: its priority and its arrival stamp (`enqueuedAt`, modelled as a
Nat so that "older" is a decidable comparison). -/
structure QMsg where
  pr : MPriority
  arrival : Nat
deriving DecidableEq, Repr

/-- `MessageQueue.findInsertIndex`: the index of the first queue item whose
priority level is strictly greater (i.e. strictly less urgent) than the new
item's level, or the queue length if there is none. -/
def findInsertIdx : List QMsg → MPriority → Nat
  | [], _ => 0
  | m :: rest, p =>
    if priorityLevel p < priorityLevel m.pr then 0
    else findInsertIdx rest p + 1

/-- `Array.prototype.splice(i, 0, m)`: insert `m` at index `i`
(at the end when `i` exceeds the length). -/
def insertAt : Nat → QMsg → List QMsg → List QMsg
  | 0, m, q => m :: q
  | _ + 1, m, [] => [m]
  | n + 1, m, x :: q => x :: insertAt n m q

/-- The eviction step of `MessageQueue.enqueue` at capacity:
`queue.findIndex(m => m.priority === 'low')` followed by `splice(i, 1)`,
returning the removed element and the remaining queue
(`none` when no low-priority item exists). -/
def removeFirstLow : List QMsg → Option (QMsg × List QMsg)
  | [] => none
  | x :: rest =>
    if x.pr = .low then some (x, rest)
    else (removeFirstLow rest).map (fun er => (er.1, x :: er.2))

/-- `MessageQueue.enqueue`: when the queue has reached `maxQueueSize`, the
first (oldest) low-priority item is evicted; if none exists the call throws
`'Queue is full'`. The new message is then inserted at `findInsertIndex`. -/
def enqueue (maxQueueSize : Nat) (q : List QMsg) (m : QMsg) :
    Except String (List QMsg) :=
  if maxQueueSize ≤ q.length then
    match removeFirstLow q with
    | some (_, q') => .ok (insertAt (findInsertIdx q' m.pr) m q')
    | none => .error "Queue is full"
  else .ok (insertAt (findInsertIdx q m.pr) m q)

/-- Stable priority-banded FIFO order: priority levels are nondecreasing
along the queue, and within a band arrival stamps strictly increase. -/
def bandedFIFO (q : List QMsg) : Prop :=
  q.Pairwise (fun a b =>
    priorityLevel a.pr ≤ priorityLevel b.pr ∧ (a.pr = b.pr → a.arrival < b.arrival))

theorem priorityLevel_injective {p p' : MPriority}
    (h : priorityLevel p = priorityLevel p') : p = p' := by
  cases p <;> cases p' <;> simp_all [priorityLevel]

theorem mem_insertAt {m x : QMsg} :
    ∀ (n : Nat) (q : List QMsg), x ∈ insertAt n m q ↔ x = m ∨ x ∈ q := by
  intro n
  induction n with
  | zero =>
    intro q
    simp [insertAt]
  | succ k ih =>
    intro q
    cases q with
    | nil => simp [insertAt]
    | cons y rest =>
      simp [insertAt, ih rest]
      tauto

theorem findInsertIdx_le_length (q : List QMsg) (p : MPriority) :
    findInsertIdx q p ≤ q.length := by
  induction q with
  | nil => simp [findInsertIdx]
  | cons x rest ih =>
    simp only [findInsertIdx, List.length_cons]
    split
    · omega
    · omega

theorem findInsertIdx_take (q : List QMsg) (p : MPriority) :
    ∀ x ∈ q.take (findInsertIdx q p), ¬ priorityLevel p < priorityLevel x.pr := by
  induction q with
  | nil => simp
  | cons y rest ih =>
    simp only [findInsertIdx]
    split
    · simp
    · intro x hx
      rcases List.mem_cons.mp (by simpa using hx) with h | h
      · subst h; omega
      · exact ih x h

theorem findInsertIdx_drop (q : List QMsg) (p : MPriority) :
    ∀ x, (q.drop (findInsertIdx q p)).head? = some x →
      priorityLevel p < priorityLevel x.pr := by
  induction q with
  | nil => simp
  | cons y rest ih =>
    simp only [findInsertIdx]
    split
    · intro x hx
      simp only [List.drop_zero, List.head?_cons, Option.some.injEq] at hx
      subst hx
      assumption
    · intro x hx
      exact ih x (by simpa using hx)

theorem bandedFIFO_insertAt (q : List QMsg) (m : QMsg)
    (hq : bandedFIFO q) (hnew : ∀ x ∈ q, x.arrival < m.arrival) :
    bandedFIFO (insertAt (findInsertIdx q m.pr) m q) := by
  induction q with
  | nil =>
    simp [findInsertIdx, insertAt, bandedFIFO]
  | cons x rest ih =>
    rcases List.pairwise_cons.mp hq with ⟨hx, hrest⟩
    simp only [findInsertIdx]
    split
    · rename_i hlt
      refine List.pairwise_cons.mpr ⟨?_, hq⟩
      intro b hb
      rcases List.mem_cons.mp hb with h | h
      · subst h
        refine ⟨Nat.le_of_lt hlt, fun hpr => ?_⟩
        exact absurd (congrArg priorityLevel hpr) (by omega)
      · have := hx b h
        refine ⟨Nat.le_trans (Nat.le_of_lt hlt) this.1, fun hpr => ?_⟩
        have : priorityLevel m.pr = priorityLevel b.pr := congrArg priorityLevel hpr
        omega
    · rename_i hge
      have hx' : x ∈ x :: rest := List.mem_cons_self x rest
      simp only [insertAt]
      refine List.pairwise_cons.mpr ⟨?_, ?_⟩
      · intro b hb
        rcases (mem_insertAt _ _).mp hb with h | h
        · subst h
          exact ⟨Nat.le_of_not_lt hge, fun _ => hnew x hx'⟩
        · exact hx b h
      · exact ih hrest (fun y hy => hnew y (List.mem_cons_of_mem x hy))

theorem removeFirstLow_none_iff (q : List QMsg) :
    removeFirstLow q = none ↔ ∀ x ∈ q, x.pr ≠ .low := by
  induction q with
  | nil => simp [removeFirstLow]
  | cons x rest ih =>
    by_cases hx : x.pr = .low
    · rw [removeFirstLow, if_pos hx]
      constructor
      · intro h; cases h
      · intro h
        exact absurd hx (h x (List.mem_cons_self x rest))
    · rw [removeFirstLow, if_neg hx]
      cases hrec : removeFirstLow rest with
      | none =>
        simp only [Option.map_none']
        constructor
        · intro _ y hy
          rcases List.mem_cons.mp hy with h' | h'
          · subst h'; exact hx
          · exact ih.mp hrec y h'
        · intro _; trivial
      | some er =>
        simp only [Option.map_some']
        constructor
        · intro h; cases h
        · intro h
          have h2 := ih.mpr (fun y hy => h y (List.mem_cons_of_mem x hy))
          rw [h2] at hrec
          cases hrec

theorem removeFirstLow_spec (q : List QMsg) (e : QMsg) (q' : List QMsg)
    (h : removeFirstLow q = some (e, q')) :
    e.pr = .low ∧ e ∈ q ∧
    (bandedFIFO q → ∀ x ∈ q, x.pr = .low → e.arrival ≤ x.arrival) := by
  induction q generalizing q' with
  | nil => simp [removeFirstLow] at h
  | cons x rest ih =>
    by_cases hx : x.pr = .low
    · rw [removeFirstLow, if_pos hx] at h
      injection h with h
      injection h with h1 h2
      subst h1
      refine ⟨hx, List.mem_cons_self _ _, ?_⟩
      intro hband y hy hylow
      rcases List.mem_cons.mp hy with h' | h'
      · subst h'; exact Nat.le_refl _
      · exact Nat.le_of_lt
          (((List.pairwise_cons.mp hband).1 y h').2 (hx.trans hylow.symm))
    · rw [removeFirstLow, if_neg hx] at h
      cases hrec : removeFirstLow rest with
      | none =>
        rw [hrec] at h
        simp only [Option.map_none'] at h
        cases h
      | some er =>
        rw [hrec] at h
        simp only [Option.map_some'] at h
        injection h with h
        injection h with h1 h2
        have hrec' : removeFirstLow rest = some (e, er.2) := by
          rw [hrec, ← h1]
        obtain ⟨p1, p2, p3⟩ := ih er.2 hrec'
        refine ⟨p1, List.mem_cons_of_mem x p2, ?_⟩
        intro hband y hy hylow
        rcases List.mem_cons.mp hy with h' | h'
        · subst h'
          exact absurd hylow hx
        · exact p3 (List.pairwise_cons.mp hband).2 y h' hylow

/-- C7: the insertion position chosen by `findInsertIndex` is the index of
the first existing item of strictly lower priority (end of queue if none),
and enqueueing a fresh message into a stable priority-banded-FIFO queue
preserves that order (equal priorities stay in arrival order). -/
theorem C7_priority_insertion :
    (∀ (q : List QMsg) (p : MPriority),
      findInsertIdx q p ≤ q.length ∧
      (∀ x ∈ q.take (findInsertIdx q p), ¬ priorityLevel p < priorityLevel x.pr) ∧
      (∀ x, (q.drop (findInsertIdx q p)).head? = some x →
        priorityLevel p < priorityLevel x.pr)) ∧
    (∀ (q : List QMsg) (m : QMsg), bandedFIFO q →
      (∀ x ∈ q, x.arrival < m.arrival) →
      bandedFIFO (insertAt (findInsertIdx q m.pr) m q)) := by
  refine ⟨fun q p => ⟨findInsertIdx_le_length q p, findInsertIdx_take q p,
    findInsertIdx_drop q p⟩, ?_⟩
  intro q m hq hnew
  exact bandedFIFO_insertAt q m hq hnew

/-- Witness for C7 at a concrete banded queue. -/
theorem C7_priority_insertion_witness :
    bandedFIFO [⟨.urgent, 0⟩, ⟨.normal, 1⟩, ⟨.low, 2⟩] ∧
    bandedFIFO (insertAt
      (findInsertIdx [⟨.urgent, 0⟩, ⟨.normal, 1⟩, ⟨.low, 2⟩] MPriority.normal)
      ⟨.normal, 3⟩ [⟨.urgent, 0⟩, ⟨.normal, 1⟩, ⟨.low, 2⟩]) := by
  have hband : bandedFIFO [⟨.urgent, 0⟩, ⟨.normal, 1⟩, ⟨.low, 2⟩] := by
    simp [bandedFIFO, priorityLevel]
  refine ⟨hband, C7_priority_insertion.2 _ ⟨.normal, 3⟩ hband ?_⟩
  intro x hx
  fin_cases hx <;> simp

/-- C6: at capacity, enqueue evicts the first low-priority item, which (in
a banded-FIFO queue) is the oldest low item; the evicted item is always of
priority `low`; and when no low item exists enqueue throws `'Queue is
full'` (leaving the queue unchanged, as the error carries no new queue). -/
theorem C6_full_queue_policy (q : List QMsg) (m : QMsg) (maxSize : Nat)
    (hfull : maxSize ≤ q.length) :
    ((∀ x ∈ q, x.pr ≠ .low) → enqueue maxSize q m = .error "Queue is full") ∧
    (∀ e q', removeFirstLow q = some (e, q') →
      e.pr = .low ∧ e ∈ q ∧
      enqueue maxSize q m = .ok (insertAt (findInsertIdx q' m.pr) m q') ∧
      (bandedFIFO q → ∀ x ∈ q, x.pr = .low → e.arrival ≤ x.arrival)) := by
  constructor
  · intro hnone
    have h := (removeFirstLow_none_iff q).mpr hnone
    simp [enqueue, hfull, h]
  · intro e q' hrm
    obtain ⟨h1, h2, h3⟩ := removeFirstLow_spec q e q' hrm
    refine ⟨h1, h2, ?_, h3⟩
    simp [enqueue, hfull, hrm]

/-- Witness for C6: a full queue of non-low items rejects the new item, and
a full queue with a low item evicts exactly the oldest low item. -/
theorem C6_full_queue_policy_witness :
    enqueue 2 [⟨.high, 0⟩, ⟨.normal, 1⟩] ⟨.high, 2⟩ = .error "Queue is full" ∧
    (removeFirstLow [⟨.normal, 0⟩, ⟨.low, 1⟩] = some (⟨.low, 1⟩, [⟨.normal, 0⟩]) ∧
      enqueue 2 [⟨.normal, 0⟩, ⟨.low, 1⟩] ⟨.high, 2⟩ =
        .ok [⟨.high, 2⟩, ⟨.normal, 0⟩]) := by
  refine ⟨?_, ?_, ?_⟩
  · exact (C6_full_queue_policy [⟨.high, 0⟩, ⟨.normal, 1⟩] ⟨.high, 2⟩ 2
      (by decide)).1 (by decide)
  · decide
  · have h := (C6_full_queue_policy [⟨.normal, 0⟩, ⟨.low, 1⟩] ⟨.high, 2⟩ 2
      (by decide)).2 ⟨.low, 1⟩ [⟨.normal, 0⟩] (by decide)
    exact h.2.2.1

/-! ## Session coordinator (`src/arbiter/coordinator.ts`)

The coordinator is a mutable object driven by the Node event loop.  We
embed it as a state record plus one step function per public method;
`setImmediate(() => this.executePendingActions())` is embedded as a
`scheduled` flag that a separate `tick` step consumes, so that "executes on
the next scheduling tick, not synchronously" is expressible.  The
`executed` field records, in order, the actions whose execution began
(`action:executing`). -/

/-- `CoordinatorState`. -/
inductive CoordinatorState where
  | running
  | draining
  | executing
  | stopped
deriving DecidableEq, Repr

/-- `PendingActionType`. -/
inductive PendingActionType where
  | restart
  | shutdown
  | cleanup
deriving DecidableEq, Repr

/-- A pending action, reduced to the fields the lifecycle logic reads. -/
structure CoAction where
  type : PendingActionType
  reason : String
deriving DecidableEq, Repr

/-- Coordinator state: lifecycle state, active-session id set (Map keys),
FIFO pending-action list, the observation trace of executed actions, and
whether a `setImmediate(executePendingActions)` callback is pending. -/
structure CoState where
  state : CoordinatorState
  activeSessions : List String
  pendingActions : List CoAction
  executed : List CoAction
  scheduled : Bool
deriving DecidableEq, Repr

/-- `SessionCoordinator.canStartSession`: true iff state is `running`. -/
def canStartSession (st : CoState) : Bool :=
  st.state = .running

/-- The action-execution loop of `executePendingActions`: actions are
shifted and executed in FIFO order; a `restart` or `shutdown` action calls
`process.exit(0)`, so execution stops there (remaining actions are lost
with the process).  Returns (actions whose execution began, remaining
queue, whether the process exited). -/
def runActions : List CoAction → List CoAction × List CoAction × Bool
  | [] => ([], [], false)
  | a :: rest =>
    match a.type with
    | .cleanup =>
      let (ex, rem, exited) := runActions rest
      (a :: ex, rem, exited)
    | _ => ([a], rest, true)

/-- `SessionCoordinator.executePendingActions`: with an empty queue it just
returns to `running`; otherwise it drains the queue in order, terminating
the process at the first restart/shutdown, and returns to `running` if no
terminating action ran. -/
def executePendingActions (st : CoState) : CoState :=
  if st.pendingActions = [] then { st with state := .running }
  else
    let (ex, rem, exited) := runActions st.pendingActions
    { st with
      state := if exited then .stopped else .running,
      pendingActions := rem,
      executed := st.executed ++ ex }

/-- `SessionCoordinator.completeSession`: unknown ids are ignored; a known
id is removed from the active set, and only when the remaining count is
zero **and** the state is `draining` are the pending actions executed. -/
def coCompleteSession (st : CoState) (sessionId : String) : CoState :=
  if sessionId ∈ st.activeSessions then
    let st' := { st with activeSessions := st.activeSessions.erase sessionId }
    if st'.activeSessions = [] ∧ st'.state = .draining then
      executePendingActions st'
    else st'
  else st

/-- `SessionCoordinator.queueAction`: appends the action, transitions
`running → draining`, and — only when the active-session count is zero —
schedules `executePendingActions` via `setImmediate` (the `scheduled`
flag); it never executes the action synchronously. -/
def queueAction (st : CoState) (a : CoAction) : CoState :=
  let st1 := { st with pendingActions := st.pendingActions ++ [a] }
  let activeCount := st1.activeSessions.length
  let st2 := if st1.state = .running then { st1 with state := .draining } else st1
  if activeCount = 0 then { st2 with scheduled := true } else st2

/-- One event-loop turn: a pending `setImmediate(executePendingActions)`
callback fires. -/
def coTick (st : CoState) : CoState :=
  if st.scheduled then executePendingActions { st with scheduled := false }
  else st

/-- Name of an action type (its TypeScript string literal). -/
def actionTypeName : PendingActionType → String
  | .restart => "restart"
  | .shutdown => "shutdown"
  | .cleanup => "cleanup"

/-- `SessionCoordinator.registerSession`: throws unless the state is
`running`; otherwise records the session id in the active set. -/
def coRegisterSession (st : CoState) (sessionId : String) :
    Except String CoState :=
  if canStartSession st then
    .ok { st with
      activeSessions :=
        if sessionId ∈ st.activeSessions then st.activeSessions
        else st.activeSessions ++ [sessionId] }
  else
    let t := match st.pendingActions.head? with
      | some a => actionTypeName a.type
      | none => "shutdown"
    let r := match st.pendingActions.head? with
      | some a => a.reason
      | none => "unknown"
    .error ("Not accepting new sessions - " ++ t ++ " pending: " ++ r)

/-- External stimuli of the coordinator. -/
inductive CoEvent where
  | complete (sessionId : String)
  | register (sessionId : String)
  | queue (a : CoAction)
  | tick
deriving DecidableEq, Repr

/-- One coordinator step.  A rejected registration leaves the state
unchanged (the exception propagates to the caller). -/
def coStep (st : CoState) (e : CoEvent) : CoState :=
  match e with
  | .complete sessionId => coCompleteSession st sessionId
  | .register sessionId =>
    match coRegisterSession st sessionId with
    | .ok st' => st'
    | .error _ => st
  | .queue a => queueAction st a
  | .tick => coTick st

/-- Run a list of events. -/
def coRun (st : CoState) : List CoEvent → CoState
  | [] => st
  | e :: evs => coRun (coStep st e) evs

/-- Invariant holding while the coordinator drains: nothing has executed,
no execution is scheduled, the state is `draining`, some session is still
active, at least one action is pending, and every session of the initial
set `ids` is either still active or has been completed by a past event. -/
def drainInv (ids : List String) (st : CoState) (past : List CoEvent) : Prop :=
  st.executed = [] ∧ st.scheduled = false ∧ st.state = .draining ∧
  st.activeSessions ≠ [] ∧ st.pendingActions ≠ [] ∧
  ∀ id ∈ ids, id ∈ st.activeSessions ∨ CoEvent.complete id ∈ past

theorem drain_step (ids : List String) (st : CoState) (past : List CoEvent)
    (e : CoEvent)
    (h : drainInv ids st past ∨ ∀ id ∈ ids, CoEvent.complete id ∈ past) :
    drainInv ids (coStep st e) (past ++ [e]) ∨
      ∀ id ∈ ids, CoEvent.complete id ∈ past ++ [e] := by
  rcases h with h | h
  · obtain ⟨hex, hsc, hstate, hact, hpend, hcov⟩ := h
    cases e with
    | complete sessionId =>
      by_cases hin : sessionId ∈ st.activeSessions
      · simp only [coStep, coCompleteSession, if_pos hin]
        by_cases hdone :
            st.activeSessions.erase sessionId = [] ∧
              ({ st with activeSessions := st.activeSessions.erase sessionId }
                : CoState).state = .draining
        · right
          intro id hid
          rcases hcov id hid with hmem | hpast
          · have : id ∈ st.activeSessions.erase sessionId ∨ id = sessionId := by
              by_cases hne : id = sessionId
              · right; exact hne
              · left; exact (List.mem_erase_of_ne hne).mpr hmem
            rcases this with hmem' | rfl
            · rw [hdone.1] at hmem'; cases hmem'
            · exact List.mem_append_right _ (List.mem_singleton.mpr rfl)
          · exact List.mem_append_left _ hpast
        · left
          rw [if_neg hdone]
          have herase : st.activeSessions.erase sessionId ≠ [] := by
            intro hempty
            exact hdone ⟨hempty, hstate⟩
          refine ⟨hex, hsc, hstate, herase, hpend, ?_⟩
          intro id hid
          rcases hcov id hid with hmem | hpast
          · by_cases hne : id = sessionId
            · subst hne
              right
              exact List.mem_append_right _ (List.mem_singleton.mpr rfl)
            · left
              exact (List.mem_erase_of_ne hne).mpr hmem
          · right
            exact List.mem_append_left _ hpast
      · left
        simp only [coStep, coCompleteSession, if_neg hin]
        refine ⟨hex, hsc, hstate, hact, hpend, ?_⟩
        intro id hid
        rcases hcov id hid with hmem | hpast
        · exact Or.inl hmem
        · exact Or.inr (List.mem_append_left _ hpast)
    | register sessionId =>
      left
      have hnot : canStartSession st = false := by
        simp [canStartSession, hstate]
      simp only [coStep, coRegisterSession, hnot, Bool.false_eq_true, if_false]
      refine ⟨hex, hsc, hstate, hact, hpend, ?_⟩
      intro id hid
      rcases hcov id hid with hmem | hpast
      · exact Or.inl hmem
      · exact Or.inr (List.mem_append_left _ hpast)
    | queue a =>
      left
      have hcount : ({ st with pendingActions := st.pendingActions ++ [a] }
          : CoState).activeSessions.length ≠ 0 := by
        simpa using fun hlen => hact (List.eq_nil_of_length_eq_zero hlen)
      have hstate' : ({ st with pendingActions := st.pendingActions ++ [a] }
          : CoState).state = .draining := hstate
      simp only [queueAction, coStep]
      rw [hstate']
      simp only [CoordinatorState.draining, reduceCtorEq, if_false, if_neg hcount]
      refine ⟨hex, hsc, rfl, hact, by simp, ?_⟩
      intro id hid
      rcases hcov id hid with hmem | hpast
      · exact Or.inl hmem
      · exact Or.inr (List.mem_append_left _ hpast)
    | tick =>
      left
      simp only [coStep, coTick, hsc, Bool.false_eq_true, if_false]
      refine ⟨hex, hsc, hstate, hact, hpend, ?_⟩
      intro id hid
      rcases hcov id hid with hmem | hpast
      · exact Or.inl hmem
      · exact Or.inr (List.mem_append_left _ hpast)
  · right
    intro id hid
    exact List.mem_append_left _ (h id hid)

theorem drain_run (ids : List String) (evs : List CoEvent) (st : CoState)
    (past : List CoEvent)
    (h : drainInv ids st past ∨ ∀ id ∈ ids, CoEvent.complete id ∈ past) :
    drainInv ids (coRun st evs) (past ++ evs) ∨
      ∀ id ∈ ids, CoEvent.complete id ∈ past ++ evs := by
  induction evs generalizing st past with
  | nil => simpa using h
  | cons e rest ih =>
    have hstep := drain_step ids st past e h
    have := ih (coStep st e) (past ++ [e]) hstep
    simpa [List.append_assoc] using this

/-- C2, drain correctness: (1) from `running` with a nonempty active set,
queueing an action and then running any sequence of coordinator events can
only begin executing actions after *every* initially active session has
been completed; (2) queueing with zero active sessions executes nothing
synchronously but schedules execution, which the next event-loop tick then
performs. -/
theorem C2_drain_correctness (ids : List String) (a : CoAction)
    (hne : ids ≠ []) :
    (∀ evs : List CoEvent,
      (coRun (queueAction ⟨.running, ids, [], [], false⟩ a) evs).executed ≠ [] →
      ∀ id ∈ ids, CoEvent.complete id ∈ evs) ∧
    (∀ st : CoState, st.activeSessions = [] → st.state = .running →
      st.pendingActions = [] →
      (queueAction st a).executed = st.executed ∧
      (queueAction st a).scheduled = true ∧
      (coTick (queueAction st a)).executed = st.executed ++ [a]) := by
  constructor
  · intro evs hex
    have hinit : drainInv ids (queueAction ⟨.running, ids, [], [], false⟩ a) [] := by
      have hcnt : ids.length ≠ 0 := by
        simpa using fun hlen => hne (List.eq_nil_of_length_eq_zero hlen)
      constructor
      · simp [queueAction, hcnt]
      · constructor
        · simp [queueAction, hcnt]
        · constructor
          · simp [queueAction, hcnt]
          · constructor
            · simp [queueAction, hcnt, hne]
            · constructor
              · simp [queueAction, hcnt]
              · intro id hid
                left
                simp [queueAction, hcnt, hid]
    have h := drain_run ids evs (queueAction ⟨.running, ids, [], [], false⟩ a) []
      (Or.inl hinit)
    rcases h with h | h
    · exact absurd h.1 hex
    · intro id hid
      simpa using h id hid
  · intro st hact hstate hpend
    have h1 : queueAction st a =
        { st with pendingActions := st.pendingActions ++ [a],
                  state := .draining, scheduled := true } := by
      simp [queueAction, hact, hstate]
    refine ⟨by rw [h1], by rw [h1], ?_⟩
    rw [h1]
    simp [coTick, executePendingActions, hpend, runActions]
    cases htyp : a.type <;> simp [runActions, htyp]

/-- Witness for C2 at one active session and a restart action. -/
theorem C2_drain_correctness_witness :
    ((coRun (queueAction ⟨.running, ["s1"], [], [], false⟩ ⟨.restart, "r"⟩)
        [CoEvent.tick]).executed ≠ [] →
      ∀ id ∈ ["s1"], CoEvent.complete id ∈ [CoEvent.tick]) ∧
    (coTick (queueAction ⟨.running, [], [], [], false⟩ ⟨.restart, "r"⟩)).executed =
      [] ++ [⟨.restart, "r"⟩] := by
  constructor
  · exact (C2_drain_correctness ["s1"] ⟨.restart, "r"⟩ (by decide)).1 [CoEvent.tick]
  · exact ((C2_drain_correctness ["s1"] ⟨.restart, "r"⟩ (by decide)).2
      ⟨.running, [], [], [], false⟩ rfl rfl rfl).2.2

/-- C3, registration gating: `canStartSession` is true exactly in state
`running`; `registerSession` rejects (with the state, hence the active-session
set, unchanged in the step semantics) whenever the state is not `running`;
and in particular every registration attempted after a `queueAction` from
`running` is rejected even though no session has completed. -/
theorem C3_registration_gating :
    (∀ st : CoState, canStartSession st = true ↔ st.state = .running) ∧
    (∀ (st : CoState) (sessionId : String), st.state ≠ .running →
      (∃ msg, coRegisterSession st sessionId = .error msg) ∧
      coStep st (.register sessionId) = st) ∧
    (∀ (st : CoState) (a : CoAction) (sessionId : String),
      st.state = .running →
      ∃ msg, coRegisterSession (queueAction st a) sessionId = .error msg) := by
  refine ⟨?_, ?_, ?_⟩
  · intro st
    simp [canStartSession]
  · intro st sessionId hst
    have hnot : canStartSession st = false := by
      simp [canStartSession, hst]
    constructor
    · simp only [coRegisterSession, hnot, Bool.false_eq_true, if_false]
      exact ⟨_, rfl⟩
    · simp only [coStep, coRegisterSession, hnot, Bool.false_eq_true, if_false]
  · intro st a sessionId hst
    have hdrain : (queueAction st a).state = .draining := by
      simp [queueAction, hst]
      split <;> rfl
    have hnot : canStartSession (queueAction st a) = false := by
      simp [canStartSession, hdrain]
    simp only [coRegisterSession, hnot, Bool.false_eq_true, if_false]
    exact ⟨_, rfl⟩

/-- Witness for C3 at a draining state and at a fresh `queueAction`. -/
theorem C3_registration_gating_witness :
    (canStartSession ⟨.running, [], [], [], false⟩ = true ↔
      (⟨.running, [], [], [], false⟩ : CoState).state = .running) ∧
    (∃ msg, coRegisterSession ⟨.draining, [], [], [], false⟩ "s1" = .error msg) ∧
    (∃ msg, coRegisterSession
      (queueAction ⟨.running, ["s0"], [], [], false⟩ ⟨.shutdown, "sig"⟩) "s1" =
        .error msg) := by
  refine ⟨C3_registration_gating.1 _, ?_, ?_⟩
  · exact (C3_registration_gating.2.1 ⟨.draining, [], [], [], false⟩ "s1"
      (by decide)).1
  · exact C3_registration_gating.2.2 ⟨.running, ["s0"], [], [], false⟩
      ⟨.shutdown, "sig"⟩ "s1" rfl

/-! ## Git worktree manager (`git/worktree.ts`)

Each manager method is embedded as a pure function over an *environment*
recording the outcome of every external git invocation; the function also
returns the ordered trace of git commands it issued, so that frame
properties about which commands run can be stated. -/

/-- Git commands issued by the worktree manager (with the data the claims
inspect: commit messages, branch names, paths). -/
inductive GitCmd where
  | fetchOrigin
  | checkoutDefault
  | pullDefault
  | mergeBranch (message : String)
  | statusQuery
  | mergeAbort
  | pushDefault
  | addAll
  | statusPorcelain
  | commit (message : String)
  | revParseHead
  | resetHardOrigin
  | resetHardHead
  | worktreeRemove (path : String)
  | branchDelete (branch : String)
  | rawRm (path : String)
deriving DecidableEq, Repr

/-- A chat message, reduced to the fields the worktree manager reads. -/
structure Msg where
  authorName : String
  content : String
deriving DecidableEq, Repr

/-- `WorkSessionStatus`. -/
inductive WorkSessionStatus where
  | creating
  | active
  | committing
  | rebasing
  | completed
  | failed
  | abandoned
deriving DecidableEq, Repr

/-- A `WorkSession`, reduced to the fields the embedded operations read or
write (`Date` fields such as `updatedAt` are omitted: no claim mentions
them).  `channelName` is `Option String` like the TypeScript optional
field. -/
structure Session where
  id : String
  worktreePath : String
  branchName : String
  authorName : String
  channelName : Option String
  status : WorkSessionStatus
  commits : List String
  pendingMessages : List Msg
  shouldCheckpoint : Bool
  checkpointCount : Nat
deriving DecidableEq, Repr

/-- `WorktreeManager.escapeMessage`: the four sequential global `replace`
calls (`\ " $` and backtick) amount to prefixing each such character with a
backslash, since the later passes never match the backslashes the earlier
passes insert. -/
def escapeChar (c : Char) : List Char :=
  if c = '\\' ∨ c = '"' ∨ c = '$' ∨ c = '\x60' then ['\\', c] else [c]

def escapeMessage (message : String) : String :=
  String.mk (message.toList.map escapeChar).flatten

/-- JS truthiness of `session.triggeredBy.channelName || 'DM'`: an absent
*or empty* channel name falls back to `'DM'`. -/
def channelOrDM : Option String → String
  | none => "DM"
  | some c => if c = "" then "DM" else c

/-- Outcomes of the external git invocations made by `commitChanges` (and
by `createCheckpoint`, which reads the same working tree): whether
`add -A` succeeds, the `status --porcelain` output, whether `commit`
succeeds, the `rev-parse HEAD` output, and whether `rev-parse` succeeds. -/
structure CommitEnv where
  addOk : Bool
  statusOut : String
  commitOk : Bool
  newHash : String
  revParseOk : Bool
deriving DecidableEq, Repr

/-- `WorktreeManager.commitChanges` on a session: stages all changes; if
`status --porcelain` is blank, logs and returns the empty result (modelled
`none`) with the status back to `active`; otherwise commits with the
attribution footer, reads the new hash, appends it to `session.commits`
and returns it.  On any git failure the catch restores `status` to
`active` and rethrows.  Returns (result, updated session, git trace). -/
def commitChanges (session : Session) (commitMessage : String)
    (env : CommitEnv) :
    Except String (Option String) × Session × List GitCmd :=
  let s1 := { session with status := WorkSessionStatus.committing }
  if !env.addOk then
    (.error "git add failed", { s1 with status := .active }, [GitCmd.addAll])
  else if jsTrim env.statusOut = "" then
    (.ok none, { s1 with status := .active },
      [GitCmd.addAll, GitCmd.statusPorcelain])
  else
    let fullMessage := commitMessage ++ "\n\nTriggered by: " ++
      session.authorName ++ "\nChannel: " ++ channelOrDM session.channelName
    if !env.commitOk then
      (.error "git commit failed", { s1 with status := .active },
        [GitCmd.addAll, GitCmd.statusPorcelain,
          GitCmd.commit (escapeMessage fullMessage)])
    else if !env.revParseOk then
      (.error "git rev-parse failed", { s1 with status := .active },
        [GitCmd.addAll, GitCmd.statusPorcelain,
          GitCmd.commit (escapeMessage fullMessage), GitCmd.revParseHead])
    else
      let commitHash := jsTrim env.newHash
      (.ok (some commitHash),
        { s1 with status := .active, commits := s1.commits ++ [commitHash] },
        [GitCmd.addAll, GitCmd.statusPorcelain,
          GitCmd.commit (escapeMessage fullMessage), GitCmd.revParseHead])

/-- The manager's session map (`Map<string, WorkSession>`), embedded as a
function from ids, with `commitChanges(sessionId, ...)` acting on it:
unknown ids throw; otherwise the updated session replaces the old one. -/
def managerCommitChanges (sessions : String → Option Session)
    (sessionId commitMessage : String) (env : CommitEnv) :
    Except String (Option String) × (String → Option Session) × List GitCmd :=
  match sessions sessionId with
  | none => (.error ("Session " ++ sessionId ++ " not found"), sessions, [])
  | some s =>
    let (res, s', tr) := commitChanges s commitMessage env
    (res, fun id => if id = sessionId then some s' else sessions id, tr)

/-- C4, no-op commit invariant: with a clean tree after staging,
`commitChanges` returns the empty result, runs no `git commit`, and leaves
the commit list untouched; with staged changes it commits exactly once,
with the requester/channel attribution footer, and appends the new hash to
the session's commit list. -/
theorem C4_no_op_commit (session : Session) (commitMessage : String)
    (env : CommitEnv) (hadd : env.addOk = true) :
    (jsTrim env.statusOut = "" →
      (commitChanges session commitMessage env).1 = .ok none ∧
      (commitChanges session commitMessage env).2.1.commits = session.commits ∧
      ∀ m, GitCmd.commit m ∉ (commitChanges session commitMessage env).2.2) ∧
    (jsTrim env.statusOut ≠ "" → env.commitOk = true → env.revParseOk = true →
      (commitChanges session commitMessage env).1 = .ok (some (jsTrim env.newHash)) ∧
      (commitChanges session commitMessage env).2.1.commits =
        session.commits ++ [jsTrim env.newHash] ∧
      GitCmd.commit (escapeMessage (commitMessage ++ "\n\nTriggered by: " ++
          session.authorName ++ "\nChannel: " ++ channelOrDM session.channelName))
        ∈ (commitChanges session commitMessage env).2.2) := by
  constructor
  · intro hclean
    simp [commitChanges, hadd, hclean]
  · intro hdirty hcommit hrev
    simp [commitChanges, hadd, hdirty, hcommit, hrev]

/-- Witness for C4: a clean tree produces no commit; a dirty tree commits
with the footer. -/
theorem C4_no_op_commit_witness :
    (commitChanges ⟨"s1", "/w", "b", "alice", some "general", .active, ["c0"],
        [], false, 0⟩ "msg" ⟨true, "  \n ", true, "deadbeef\n", true⟩).1 =
      .ok none ∧
    (commitChanges ⟨"s1", "/w", "b", "alice", some "general", .active, ["c0"],
        [], false, 0⟩ "msg" ⟨true, " M a.ts", true, "deadbeef\n", true⟩).2.1.commits =
      ["c0", "deadbeef"] := by
  constructor
  · exact ((C4_no_op_commit _ "msg" _ rfl).1 (by decide)).1
  · have h := ((C4_no_op_commit ⟨"s1", "/w", "b", "alice", some "general",
      .active, ["c0"], [], false, 0⟩ "msg"
      ⟨true, " M a.ts", true, "deadbeef\n", true⟩ rfl).2 (by decide) rfl rfl).2.1
    exact h.trans (by decide)

/-- C10, commit failure frame: when the commit or hash lookup fails after
staging, the error propagates, the target session's status is restored to
`active` with its commit list and checkpoint counter untouched, and every
other session of the manager is completely unchanged. -/
theorem C10_commit_failure_frame (sessions : String → Option Session)
    (sessionId commitMessage : String) (env : CommitEnv) (s : Session)
    (hs : sessions sessionId = some s)
    (hadd : env.addOk = true) (hdirty : jsTrim env.statusOut ≠ "")
    (hfail : env.commitOk = false ∨ env.revParseOk = false) :
    (∃ e, (managerCommitChanges sessions sessionId commitMessage env).1 =
      .error e) ∧
    (managerCommitChanges sessions sessionId commitMessage env).2.1 sessionId =
      some { s with status := .active } ∧
    (∀ id, id ≠ sessionId →
      (managerCommitChanges sessions sessionId commitMessage env).2.1 id =
        sessions id) := by
  have hsession : commitChanges s commitMessage env =
      ((commitChanges s commitMessage env).1,
        { s with status := WorkSessionStatus.active },
        (commitChanges s commitMessage env).2.2) ∧
      ∃ e, (commitChanges s commitMessage env).1 = .error e := by
    rcases hfail with hf | hf
    · simp [commitChanges, hadd, hdirty, hf]
    · cases hc : env.commitOk with
      | false => simp [commitChanges, hadd, hdirty, hc]
      | true => simp [commitChanges, hadd, hdirty, hc, hf]
  refine ⟨?_, ?_, ?_⟩
  · obtain ⟨e, he⟩ := hsession.2
    exact ⟨e, by simp [managerCommitChanges, hs, he]⟩
  · have h := hsession.1
    simp [managerCommitChanges, hs]
    rw [h]
  · intro id hid
    simp [managerCommitChanges, hs, hid]

/-- Witness for C10: a failing `git commit` with one known session. -/
theorem C10_commit_failure_frame_witness :
    (∃ e, (managerCommitChanges
      (fun id => if id = "s1" then some ⟨"s1", "/w", "b", "alice", none,
        .active, ["c0"], [], false, 2⟩ else none)
      "s1" "msg" ⟨true, " M a.ts", false, "", true⟩).1 = .error e) ∧
    (managerCommitChanges
      (fun id => if id = "s1" then some ⟨"s1", "/w", "b", "alice", none,
        .active, ["c0"], [], false, 2⟩ else none)
      "s1" "msg" ⟨true, " M a.ts", false, "", true⟩).2.1 "s1" =
      some ⟨"s1", "/w", "b", "alice", none, .active, ["c0"], [], false, 2⟩ := by
  have h := C10_commit_failure_frame
    (fun id => if id = "s1" then some ⟨"s1", "/w", "b", "alice", none,
      .active, ["c0"], [], false, 2⟩ else none)
    "s1" "msg" ⟨true, " M a.ts", false, "", true⟩
    ⟨"s1", "/w", "b", "alice", none, .active, ["c0"], [], false, 2⟩
    rfl rfl (by decide) (Or.inl rfl)
  exact ⟨h.1, h.2.1⟩

/-- `MergeResult`. -/
inductive ConflictType where
  | local_changes
  | untracked_files
  | merge_conflict
  | other
deriving DecidableEq, Repr

structure MergeResult where
  success : Bool
  error : Option String
  conflictType : Option ConflictType
  conflictDetails : Option String
deriving DecidableEq, Repr

/-- Outcomes of the external git invocations made by `mergeToMain`.
`fetch`/`pull`/`push` failures are swallowed by the source, so only the
outcomes the control flow reads appear: whether `checkout` succeeds (and
its error text), whether `merge` succeeds (and its error text), the
`git status` output read after a failed merge, whether `merge --abort`
succeeds (and its error text), and the outcomes of the cleanup commands. -/
structure MergeEnv where
  checkoutOk : Bool
  checkoutErr : String
  mergeOk : Bool
  mergeErr : String
  statusOut : String
  abortOk : Bool
  abortErr : String
  cleanupCheckoutOk : Bool
  resetOriginOk : Bool
deriving DecidableEq, Repr

/-- The outer `catch` of `mergeToMain`: best-effort restoration of the
main repo (checkout the default branch; hard-reset to the origin ref,
falling back to `HEAD`; all cleanup failures ignored), then a `MergeResult`
of kind `other`. -/
def mergeFailureCleanup (env : MergeEnv) (errorMessage : String)
    (tr : List GitCmd) : MergeResult × List GitCmd :=
  let cleanupTrace :=
    if env.cleanupCheckoutOk then
      GitCmd.checkoutDefault ::
        (if env.resetOriginOk then [GitCmd.resetHardOrigin]
         else [GitCmd.resetHardOrigin, GitCmd.resetHardHead])
    else [GitCmd.checkoutDefault]
  ({ success := false, error := some ("Merge failed: " ++ errorMessage),
     conflictType := some .other, conflictDetails := some errorMessage },
    tr ++ cleanupTrace)

/-- `WorktreeManager.mergeToMain`: runs in the main repo.  Fetch (failure
ignored), checkout the default branch, pull (failure ignored), then a
`--no-ff` merge of the session branch.  On merge failure: `git status`
containing `'Unmerged'`/`'both modified'` → abort the merge and report
`merge_conflict`; error text containing `'local changes'` or
`'would be overwritten'` → `local_changes` (no cleanup); error text
containing `'untracked working tree files'` → `untracked_files` (no
cleanup); otherwise the error is rethrown into the outer catch, which
restores the repo and reports `other`.  On merge success the branch is
pushed (failure ignored). -/
def mergeToMain (found : Bool) (branchName authorName : String)
    (env : MergeEnv) : MergeResult × List GitCmd :=
  if !found then
    ({ success := false, error := some "Session not found",
       conflictType := none, conflictDetails := none }, [])
  else if !env.checkoutOk then
    mergeFailureCleanup env env.checkoutErr
      [GitCmd.fetchOrigin, GitCmd.checkoutDefault]
  else
    let mergeMessage :=
      escapeMessage ("Merge " ++ branchName ++ ": Self-edit by " ++ authorName)
    let tr := [GitCmd.fetchOrigin, GitCmd.checkoutDefault, GitCmd.pullDefault,
      GitCmd.mergeBranch mergeMessage]
    if env.mergeOk then
      ({ success := true, error := none, conflictType := none,
         conflictDetails := none }, tr ++ [GitCmd.pushDefault])
    else
      let tr := tr ++ [GitCmd.statusQuery]
      if strContains env.statusOut "Unmerged" ||
          strContains env.statusOut "both modified" then
        if env.abortOk then
          ({ success := false, error := some "Merge conflict detected.",
             conflictType := some .merge_conflict,
             conflictDetails := some env.statusOut },
            tr ++ [GitCmd.mergeAbort])
        else
          mergeFailureCleanup env env.abortErr (tr ++ [GitCmd.mergeAbort])
      else if strContains env.mergeErr "local changes" ||
          strContains env.mergeErr "would be overwritten" then
        ({ success := false,
           error := some "Local changes would be overwritten by merge.",
           conflictType := some .local_changes,
           conflictDetails := some env.mergeErr }, tr)
      else if strContains env.mergeErr "untracked working tree files" then
        ({ success := false,
           error := some "Untracked files would be overwritten by merge.",
           conflictType := some .untracked_files,
           conflictDetails := some env.mergeErr }, tr)
      else
        mergeFailureCleanup env env.mergeErr tr

set_option maxRecDepth 100000 in
/-- C1 counterexample: git's standard untracked-files refusal message
(`"error: The following untracked working tree files would be overwritten
by merge: ..."`) contains the phrase `'would be overwritten'`, so the
`local_changes` test matches first and the failure is classified
`local_changes`, not `untracked_files` as the claim requires; moreover in
this failure case no cleanup command runs, so the main repository is left
with whatever blocked the merge rather than restored to a clean state. -/
theorem C1_counterexample :
    (mergeToMain true "arbiter/fix" "alice"
      ⟨true, "", false,
        "error: The following untracked working tree files would be overwritten by merge:\n\tconfig.json",
        "On branch main\nnothing to commit", true, "", true, true⟩).1.conflictType =
      some ConflictType.local_changes ∧
    strContains
      "error: The following untracked working tree files would be overwritten by merge:\n\tconfig.json"
      "untracked working tree files" = true ∧
    some ConflictType.local_changes ≠ some ConflictType.untracked_files ∧
    GitCmd.mergeAbort ∉ (mergeToMain true "arbiter/fix" "alice"
      ⟨true, "", false,
        "error: The following untracked working tree files would be overwritten by merge:\n\tconfig.json",
        "On branch main\nnothing to commit", true, "", true, true⟩).2 ∧
    GitCmd.resetHardOrigin ∉ (mergeToMain true "arbiter/fix" "alice"
      ⟨true, "", false,
        "error: The following untracked working tree files would be overwritten by merge:\n\tconfig.json",
        "On branch main\nnothing to commit", true, "", true, true⟩).2 ∧
    GitCmd.resetHardHead ∉ (mergeToMain true "arbiter/fix" "alice"
      ⟨true, "", false,
        "error: The following untracked working tree files would be overwritten by merge:\n\tconfig.json",
        "On branch main\nnothing to commit", true, "", true, true⟩).2 := by
  decide

/-- C1 as amended: classification of a failed merge follows the source's
test order — unmerged status markers → `merge_conflict` with an immediate
`merge --abort`; else error text containing `'local changes'` or
`'would be overwritten'` → `local_changes`; else `'untracked working tree
files'` → `untracked_files`; else `other` — and restoration of the main
repository (hard reset after re-checkout) is attempted exactly in the
`other` case, while the `local_changes`/`untracked_files` cases return
with no cleanup. -/
theorem C1_merge_classification (branchName authorName : String)
    (env : MergeEnv) (hc : env.checkoutOk = true) (hm : env.mergeOk = false)
    (hab : env.abortOk = true) (hcc : env.cleanupCheckoutOk = true) :
    (mergeToMain true branchName authorName env).1.success = false ∧
    ((mergeToMain true branchName authorName env).1.conflictType =
        some .merge_conflict ↔
      (strContains env.statusOut "Unmerged" ||
        strContains env.statusOut "both modified") = true) ∧
    ((mergeToMain true branchName authorName env).1.conflictType =
        some .local_changes ↔
      ((strContains env.statusOut "Unmerged" ||
          strContains env.statusOut "both modified") = false ∧
        (strContains env.mergeErr "local changes" ||
          strContains env.mergeErr "would be overwritten") = true)) ∧
    ((mergeToMain true branchName authorName env).1.conflictType =
        some .untracked_files ↔
      ((strContains env.statusOut "Unmerged" ||
          strContains env.statusOut "both modified") = false ∧
        (strContains env.mergeErr "local changes" ||
          strContains env.mergeErr "would be overwritten") = false ∧
        strContains env.mergeErr "untracked working tree files" = true)) ∧
    ((mergeToMain true branchName authorName env).1.conflictType =
        some .other ↔
      ((strContains env.statusOut "Unmerged" ||
          strContains env.statusOut "both modified") = false ∧
        (strContains env.mergeErr "local changes" ||
          strContains env.mergeErr "would be overwritten") = false ∧
        strContains env.mergeErr "untracked working tree files" = false)) ∧
    (GitCmd.mergeAbort ∈ (mergeToMain true branchName authorName env).2 ↔
      (strContains env.statusOut "Unmerged" ||
        strContains env.statusOut "both modified") = true) ∧
    ((GitCmd.resetHardOrigin ∈ (mergeToMain true branchName authorName env).2 ∨
        GitCmd.resetHardHead ∈ (mergeToMain true branchName authorName env).2) ↔
      (mergeToMain true branchName authorName env).1.conflictType =
        some .other) := by
  cases hu : (strContains env.statusOut "Unmerged" ||
      strContains env.statusOut "both modified") with
  | true =>
    simp [mergeToMain, hc, hm, hab, hu]
  | false =>
    cases hl : (strContains env.mergeErr "local changes" ||
        strContains env.mergeErr "would be overwritten") with
    | true =>
      simp [mergeToMain, hc, hm, hu, hl]
    | false =>
      cases ht : strContains env.mergeErr "untracked working tree files" with
      | true =>
        simp [mergeToMain, hc, hm, hu, hl, ht]
      | false =>
        cases hro : env.resetOriginOk with
        | true =>
          simp [mergeToMain, mergeFailureCleanup, hc, hm, hu, hl, ht, hcc, hro]
        | false =>
          simp [mergeToMain, mergeFailureCleanup, hc, hm, hu, hl, ht, hcc, hro]

/-- Witness for the amended C1: a conflicted merge (status with unmerged
markers) is classified `merge_conflict` and aborted. -/
theorem C1_merge_classification_witness :
    (mergeToMain true "arbiter/fix" "alice"
      ⟨true, "", false, "Automatic merge failed",
        "Unmerged paths:\n  both modified: a.ts", true, "", true, true⟩).1.conflictType =
      some ConflictType.merge_conflict ∧
    GitCmd.mergeAbort ∈ (mergeToMain true "arbiter/fix" "alice"
      ⟨true, "", false, "Automatic merge failed",
        "Unmerged paths:\n  both modified: a.ts", true, "", true, true⟩).2 := by
  have h := C1_merge_classification "arbiter/fix" "alice"
    ⟨true, "", false, "Automatic merge failed",
      "Unmerged paths:\n  both modified: a.ts", true, "", true, true⟩
    rfl rfl rfl rfl
  exact ⟨h.2.1.mpr (by decide), h.2.2.2.2.2.1.mpr (by decide)⟩

/-- Outcomes of the external calls made by `completeSession` /
`abandonSession`: whether `git worktree remove --force` succeeds, whether
`git branch -D` succeeds, and whether the raw `rm -rf` fallback succeeds
(its failure is ignored either way). -/
structure CleanupEnv where
  worktreeRemoveOk : Bool
  branchDeleteOk : Bool
  rawRmOk : Bool
deriving DecidableEq, Repr

/-- `WorktreeManager.completeSession`: removes the worktree (raw directory
deletion as fallback when the git removal throws); the branch deletion is
commented out in the source ("keep for PR"), so no branch command is ever
issued; the session is marked `completed` on every path. -/
def completeSessionWT (session : Session) (env : CleanupEnv) :
    Session × List GitCmd :=
  if env.worktreeRemoveOk then
    ({ session with status := .completed },
      [GitCmd.worktreeRemove session.worktreePath])
  else
    ({ session with status := .completed },
      [GitCmd.worktreeRemove session.worktreePath,
        GitCmd.rawRm session.worktreePath])

/-- `WorktreeManager.abandonSession`: removes the worktree and then deletes
the branch — but both sit in one `try`, so when the worktree removal
throws, the catch falls back to raw directory removal and the branch
deletion is skipped.  The session is marked `abandoned` on every path. -/
def abandonSessionWT (session : Session) (env : CleanupEnv) :
    Session × List GitCmd :=
  let tr :=
    if env.worktreeRemoveOk then
      if env.branchDeleteOk then
        [GitCmd.worktreeRemove session.worktreePath,
          GitCmd.branchDelete session.branchName]
      else
        [GitCmd.worktreeRemove session.worktreePath,
          GitCmd.branchDelete session.branchName,
          GitCmd.rawRm session.worktreePath]
    else
      [GitCmd.worktreeRemove session.worktreePath,
        GitCmd.rawRm session.worktreePath]
  ({ session with status := .abandoned }, tr)

/-- A sample session used in concrete counterexamples. -/
def sampleSession : Session :=
  ⟨"sess-1", "/worktrees/sess-1", "arbiter/fix-1", "alice", some "general",
    .active, [], [], false, 0⟩

/-- C9 counterexample: when `git worktree remove` throws, `abandonSession`
falls back to raw directory removal and never reaches the `branch -D`
call, so the session's branch is *not* deleted, contradicting the claim
that abandonSession deletes the branch. -/
theorem C9_counterexample :
    (abandonSessionWT sampleSession ⟨false, true, true⟩).2 =
      [GitCmd.worktreeRemove "/worktrees/sess-1", GitCmd.rawRm "/worktrees/sess-1"] ∧
    GitCmd.branchDelete sampleSession.branchName ∉
      (abandonSessionWT sampleSession ⟨false, true, true⟩).2 ∧
    (abandonSessionWT sampleSession ⟨false, true, true⟩).1.status = .abandoned := by
  decide

/-- C9 as amended: `completeSession` never issues a branch deletion (for
any environment) and marks the session `completed`; `abandonSession`
deletes the branch exactly when the git worktree removal succeeds, and
marks the session `abandoned`; and neither `commitChanges` nor
`mergeToMain` ever issues a branch deletion, so abandonment is the only
embedded operation that can discard a branch. -/
theorem C9_branch_deletion (s : Session) (env : CleanupEnv)
    (hw : env.worktreeRemoveOk = true) :
    (∀ (env' : CleanupEnv) (b : String),
      GitCmd.branchDelete b ∉ (completeSessionWT s env').2) ∧
    GitCmd.branchDelete s.branchName ∈ (abandonSessionWT s env).2 ∧
    (∀ env' : CleanupEnv, (completeSessionWT s env').1.status = .completed) ∧
    (abandonSessionWT s env).1.status = .abandoned ∧
    GitCmd.worktreeRemove s.worktreePath ∈ (completeSessionWT s env).2 ∧
    GitCmd.worktreeRemove s.worktreePath ∈ (abandonSessionWT s env).2 ∧
    (∀ (sess : Session) (msg : String) (cenv : CommitEnv) (b : String),
      GitCmd.branchDelete b ∉ (commitChanges sess msg cenv).2.2) ∧
    (∀ (found : Bool) (bn an : String) (menv : MergeEnv) (b : String),
      GitCmd.branchDelete b ∉ (mergeToMain found bn an menv).2) := by
  refine ⟨?_, ?_, ?_, ?_, ?_, ?_, ?_, ?_⟩
  · intro env' b
    cases henv : env'.worktreeRemoveOk <;> simp [completeSessionWT, henv]
  · cases hb : env.branchDeleteOk <;> simp [abandonSessionWT, hw, hb]
  · intro env'
    cases henv : env'.worktreeRemoveOk <;> simp [completeSessionWT, henv]
  · cases hb : env.branchDeleteOk <;> simp [abandonSessionWT, hw, hb]
  · simp [completeSessionWT, hw]
  · cases hb : env.branchDeleteOk <;> simp [abandonSessionWT, hw, hb]
  · intro sess msg cenv b
    cases ha : cenv.addOk with
    | false => simp [commitChanges, ha]
    | true =>
      by_cases hs : jsTrim cenv.statusOut = ""
      · simp [commitChanges, ha, hs]
      · cases hc : cenv.commitOk with
        | false => simp [commitChanges, ha, hs, hc]
        | true =>
          cases hr : cenv.revParseOk with
          | false => simp [commitChanges, ha, hs, hc, hr]
          | true => simp [commitChanges, ha, hs, hc, hr]
  · intro found bn an menv b
    cases hf : found with
    | false => simp [mergeToMain, hf]
    | true =>
      cases hc : menv.checkoutOk with
      | false =>
        cases hcc : menv.cleanupCheckoutOk <;>
          cases hro : menv.resetOriginOk <;>
            simp [mergeToMain, mergeFailureCleanup, hf, hc, hcc, hro]
      | true =>
        cases hm : menv.mergeOk with
        | true => simp [mergeToMain, hf, hc, hm]
        | false =>
          cases hu : (strContains menv.statusOut "Unmerged" ||
              strContains menv.statusOut "both modified") with
          | true =>
            cases hab : menv.abortOk with
            | true => simp [mergeToMain, hf, hc, hm, hu, hab]
            | false =>
              cases hcc : menv.cleanupCheckoutOk <;>
                cases hro : menv.resetOriginOk <;>
                  simp [mergeToMain, mergeFailureCleanup, hf, hc, hm, hu, hab,
                    hcc, hro]
          | false =>
            cases hl : (strContains menv.mergeErr "local changes" ||
                strContains menv.mergeErr "would be overwritten") with
            | true => simp [mergeToMain, hf, hc, hm, hu, hl]
            | false =>
              cases ht : strContains menv.mergeErr "untracked working tree files" with
              | true => simp [mergeToMain, hf, hc, hm, hu, hl, ht]
              | false =>
                cases hcc : menv.cleanupCheckoutOk <;>
                  cases hro : menv.resetOriginOk <;>
                    simp [mergeToMain, mergeFailureCleanup, hf, hc, hm, hu, hl,
                      ht, hcc, hro]

/-- Witness for the amended C9 at a successful cleanup environment. -/
theorem C9_branch_deletion_witness :
    GitCmd.branchDelete sampleSession.branchName ∈
      (abandonSessionWT sampleSession ⟨true, true, true⟩).2 ∧
    GitCmd.branchDelete sampleSession.branchName ∉
      (completeSessionWT sampleSession ⟨true, true, true⟩).2 := by
  have h := C9_branch_deletion sampleSession ⟨true, true, true⟩ rfl
  exact ⟨h.2.1, h.1 ⟨true, true, true⟩ sampleSession.branchName⟩

/-! ## Checkpoint & continuation protocol (`arbiter/checkpoint.ts` and the
`checkpointAborted` guard in `Arbiter.startSelfEditSession`) -/

/-- Events streamed by the generator subprocess (`ClaudeRunner`). -/
inductive GenEvent where
  | text
  | tool_use
  | tool_result
  | result
  | error
deriving DecidableEq, Repr

/-- Stimuli observed during one generation run: a streamed generator event,
or the arrival of a follow-up chat message, which (per
`Arbiter.handleMessage`) pushes onto `pendingMessages` and sets
`shouldCheckpoint`. -/
inductive RunItem where
  | event (e : GenEvent)
  | checkpointRequest
deriving DecidableEq, Repr

/-- Observation state of the `onOutput` handler: the session's
`shouldCheckpoint` flag, the run-local `checkpointAborted` guard, and the
number of `runner.abort()` calls issued. -/
structure RunObs where
  shouldCheckpoint : Bool
  checkpointAborted : Bool
  abortCount : Nat
deriving DecidableEq, Repr

/-- The `onOutput` handler of `startSelfEditSession` (and identically of
`handleCheckpointContinuation`): on each `tool_result` event, if
`session.shouldCheckpoint` is set and the run-local `checkpointAborted`
guard is not, the guard is set and the runner aborted — once per run. -/
def observeStep (st : RunObs) : RunItem → RunObs
  | .checkpointRequest => { st with shouldCheckpoint := true }
  | .event e =>
    if e = .tool_result ∧ st.shouldCheckpoint ∧ !st.checkpointAborted then
      { st with checkpointAborted := true, abortCount := st.abortCount + 1 }
    else st

/-- Observe a whole generation run starting with the session's current
`shouldCheckpoint` flag. -/
def observeRun (init : Bool) (items : List RunItem) : RunObs :=
  items.foldl observeStep ⟨init, false, 0⟩

/-- `WorktreeManager.getChangedFiles`: split `status --porcelain` output on
newlines, keep the lines with non-blank content, drop the 3-character
status prefix of each. -/
def getChangedFiles (statusOut : String) : List String :=
  (((statusOut.toList.splitOn '\n').map String.mk).filter
      (fun line => jsTrim line != "")).map
    (fun line => String.mk (line.toList.drop 3))

/-- `createCheckpoint` (checkpoint.ts): read the changed files; with none,
log and return `null` without touching the session; otherwise increment
`checkpointCount` and commit a numbered work-in-progress checkpoint via
`commitChanges` (whose exception propagates).  Both the changed-files read
and the commit observe the same working tree, hence the same `status
--porcelain` output in `env`. -/
def createCheckpoint (session : Session) (env : CommitEnv) :
    Except String (Option String × Session × List GitCmd) :=
  if (getChangedFiles env.statusOut).isEmpty then
    .ok (none, session, [GitCmd.statusPorcelain])
  else
    let s1 := { session with checkpointCount := session.checkpointCount + 1 }
    match commitChanges s1
      ("Checkpoint " ++ toString s1.checkpointCount ++
        ": Work in progress\n\nAutomated checkpoint before incorporating new instructions.")
      env with
    | (Except.ok h, s2, tr) => .ok (h, s2, GitCmd.statusPorcelain :: tr)
    | (Except.error e, _, _) => .error e

/-- The checkpoint-taking portion of
`Arbiter.handleCheckpointContinuation`: create the checkpoint commit, then
clear `pendingMessages` and `shouldCheckpoint` before re-running the
generator with the continuation prompt. -/
def checkpointCycle (session : Session) (env : CommitEnv) :
    Except String (Option String × Session × List GitCmd) :=
  match createCheckpoint session env with
  | .error e => .error e
  | .ok (h, s1, tr) =>
    .ok (h, { s1 with pendingMessages := [], shouldCheckpoint := false }, tr)

/-- Is a git command a `git commit`? -/
def isCommitCmd : GitCmd → Bool
  | .commit _ => true
  | _ => false

theorem observeStep_abortCount (st : RunObs) (item : RunItem)
    (h : st.abortCount = if st.checkpointAborted then 1 else 0) :
    (observeStep st item).abortCount =
      if (observeStep st item).checkpointAborted then 1 else 0 := by
  cases item with
  | checkpointRequest => simpa [observeStep] using h
  | event e =>
    simp only [observeStep]
    split
    · rename_i hcond
      have : st.checkpointAborted = false := by
        rcases hcond with ⟨-, -, hab⟩
        simpa using hab
      simp [this] at h
      simp [h]
    · exact h

theorem observeRun_abortCount (init : Bool) (items : List RunItem) :
    (observeRun init items).abortCount =
      if (observeRun init items).checkpointAborted then 1 else 0 := by
  suffices h : ∀ st : RunObs,
      st.abortCount = (if st.checkpointAborted then 1 else 0) →
      (items.foldl observeStep st).abortCount =
        if (items.foldl observeStep st).checkpointAborted then 1 else 0 by
    exact h ⟨init, false, 0⟩ rfl
  induction items with
  | nil => intro st h; simpa using h
  | cons item rest ih =>
    intro st h
    exact ih (observeStep st item) (observeStep_abortCount st item h)

/-- C5 counterexample: a full abort-and-resume cycle in which two
checkpoint requests arrive coalesces into a single abort (as claimed), but
with a clean working tree at checkpoint time `createCheckpoint` returns
`null`: **zero** checkpoint commits are produced and the checkpoint
counter is unchanged, contradicting "exactly one checkpoint commit per
abort-and-resume cycle" / "each checkpoint increments the counter by
exactly one".  The pending messages and flag are still cleared. -/
theorem C5_counterexample :
    (observeRun false [RunItem.checkpointRequest, RunItem.event .tool_result,
      RunItem.checkpointRequest, RunItem.event .tool_result]).abortCount = 1 ∧
    checkpointCycle
        { sampleSession with
          shouldCheckpoint := true,
          pendingMessages := [⟨"bob", "also fix the tests"⟩],
          checkpointCount := 0 }
        ⟨true, "", true, "abc123\n", true⟩ =
      .ok (none,
        { sampleSession with
          shouldCheckpoint := false,
          pendingMessages := [],
          checkpointCount := 0 },
        [GitCmd.statusPorcelain]) ∧
    (List.countP isCommitCmd [GitCmd.statusPorcelain] = 0 ∧ (0 : Nat) ≠ 1) := by
  refine ⟨by decide, by rfl, by decide, by decide⟩

/-- C5 as amended: checkpoint requests during one generation run coalesce
into at most one abort of the generator (`abortCount ≤ 1` over every run);
a cycle over a working tree with changes produces exactly one checkpoint
commit and increments the checkpoint counter by exactly one; a cycle over
a clean tree produces no commit and leaves the counter unchanged; in both
cases the cycle ends with `pendingMessages` empty and `shouldCheckpoint`
false. -/
theorem C5_checkpoint_coalescing (init : Bool) (items : List RunItem)
    (session : Session) (env : CommitEnv)
    (hadd : env.addOk = true) (hcommit : env.commitOk = true)
    (hrev : env.revParseOk = true) :
    (observeRun init items).abortCount ≤ 1 ∧
    ((getChangedFiles env.statusOut).isEmpty = true →
      checkpointCycle session env =
        .ok (none,
          { session with pendingMessages := [], shouldCheckpoint := false },
          [GitCmd.statusPorcelain])) ∧
    ((getChangedFiles env.statusOut).isEmpty = false →
      jsTrim env.statusOut ≠ "" →
      ∃ tr, checkpointCycle session env =
        .ok (some (jsTrim env.newHash),
          { session with
            checkpointCount := session.checkpointCount + 1,
            commits := session.commits ++ [jsTrim env.newHash],
            pendingMessages := [], shouldCheckpoint := false,
            status := .active }, tr) ∧
        List.countP isCommitCmd tr = 1) := by
  refine ⟨?_, ?_, ?_⟩
  · rw [observeRun_abortCount]
    split <;> omega
  · intro hempty
    simp [checkpointCycle, createCheckpoint, hempty]
  · intro hnonempty hdirty
    refine ⟨[GitCmd.statusPorcelain, GitCmd.addAll, GitCmd.statusPorcelain,
      GitCmd.commit (escapeMessage
        ("Checkpoint " ++ toString (session.checkpointCount + 1) ++
          ": Work in progress\n\nAutomated checkpoint before incorporating new instructions." ++
          "\n\nTriggered by: " ++ session.authorName ++ "\nChannel: " ++
          channelOrDM session.channelName)),
      GitCmd.revParseHead], ?_, ?_⟩
    · simp [checkpointCycle, createCheckpoint, hnonempty, commitChanges,
        hadd, hdirty, hcommit, hrev]
    · simp [List.countP, List.countP.go, isCommitCmd]

/-- Witness for the amended C5: a dirty tree yields exactly one checkpoint
commit numbered one higher. -/
theorem C5_checkpoint_coalescing_witness :
    (observeRun false [RunItem.checkpointRequest, RunItem.event .tool_result,
      RunItem.checkpointRequest, RunItem.event .tool_result]).abortCount ≤ 1 ∧
    (∃ tr, checkpointCycle
        { sampleSession with
          shouldCheckpoint := true,
          pendingMessages := [⟨"bob", "also fix the tests"⟩],
          checkpointCount := 1 }
        ⟨true, " M src/index.ts", true, "abc123\n", true⟩ =
      .ok (some "abc123",
        { sampleSession with
          checkpointCount := 2,
          commits := ["abc123"],
          pendingMessages := [],
          shouldCheckpoint := false,
          status := .active }, tr) ∧
      List.countP isCommitCmd tr = 1) := by
  have h := C5_checkpoint_coalescing false
    [RunItem.checkpointRequest, RunItem.event .tool_result,
      RunItem.checkpointRequest, RunItem.event .tool_result]
    { sampleSession with
      shouldCheckpoint := true,
      pendingMessages := [⟨"bob", "also fix the tests"⟩],
      checkpointCount := 1 }
    ⟨true, " M src/index.ts", true, "abc123\n", true⟩ rfl rfl rfl
  refine ⟨h.1, ?_⟩
  obtain ⟨tr, htr, hcount⟩ := h.2.2 (by decide) (by decide)
  exact ⟨tr, htr, hcount⟩

/-! ## Branch name generation (`WorktreeManager.generateBranchName`) -/

/-- A character kept by the slug regex `[^a-z0-9]` after lowercasing. -/
def isLowerAlnum (c : Char) : Bool :=
  decide (('a' ≤ c ∧ c ≤ 'z') ∨ ('0' ≤ c ∧ c ≤ '9'))

/-- Collapse consecutive hyphens to a single hyphen: together with the
preceding character map this embeds the global replace of
`[^a-z0-9]+` (maximal runs) by `'-'`. -/
def squeezeDashes : List Char → List Char
  | [] => []
  | [c] => [c]
  | a :: b :: t =>
    if a = '-' ∧ b = '-' then squeezeDashes (b :: t)
    else a :: squeezeDashes (b :: t)

/-- The slug computation of `generateBranchName`: lowercase, replace every
maximal run of non-alphanumerics by one hyphen, strip leading/trailing
hyphens, truncate to 30 characters. -/
def slugify (description : String) : String :=
  let lowered := description.toList.map Char.toLower
  let dashed := lowered.map (fun c => if isLowerAlnum c then c else '-')
  let squeezed := squeezeDashes dashed
  let stripped :=
    ((squeezed.dropWhile (fun c => c = '-')).reverse.dropWhile
      (fun c => c = '-')).reverse
  String.mk (stripped.take 30)

/-- Digit character of `Number.prototype.toString(36)`: `0-9` then `a-z`. -/
def base36digit (n : Nat) : Char :=
  if n < 10 then Char.ofNat (48 + n) else Char.ofNat (87 + n)

/-- Base-36 digit expansion, most significant first. -/
def toBase36Go : Nat → List Char → List Char
  | 0, acc => acc
  | n + 1, acc =>
    toBase36Go ((n + 1) / 36) (base36digit ((n + 1) % 36) :: acc)
decreasing_by exact Nat.div_lt_self (Nat.succ_pos n) (by norm_num)

/-- JS `Date.now().toString(36)` on a natural timestamp. -/
def toBase36 (n : Nat) : String :=
  if n = 0 then "0" else String.mk (toBase36Go n [])

/-- `WorktreeManager.generateBranchName` with the `Date.now()` timestamp
passed explicitly. -/
def generateBranchName (description : String) (now : Nat) : String :=
  "arbiter/" ++ slugify description ++ "-" ++ toBase36 now

theorem strAppend_assoc (a b c : String) : a ++ b ++ c = a ++ (b ++ c) :=
  congrArg String.mk (List.append_assoc a.data b.data c.data)

/-- C8: every branch name is `arbiter/` ++ slug ++ `-` ++ base-36
timestamp with the slug at most 30 characters, and the description
`"fix the bug in auth"` yields exactly
`arbiter/fix-the-bug-in-auth-<base36 timestamp>`. -/
theorem C8_branch_name :
    (∀ now, generateBranchName "fix the bug in auth" now =
      "arbiter/fix-the-bug-in-auth-" ++ toBase36 now) ∧
    (∀ description, (slugify description).length ≤ 30) ∧
    (∀ description now, generateBranchName description now =
      "arbiter/" ++ slugify description ++ "-" ++ toBase36 now) := by
  refine ⟨?_, ?_, fun _ _ => rfl⟩
  · intro now
    have hslug : slugify "fix the bug in auth" = "fix-the-bug-in-auth" := by
      decide
    calc generateBranchName "fix the bug in auth" now
        = "arbiter/" ++ "fix-the-bug-in-auth" ++ "-" ++ toBase36 now := by
          rw [generateBranchName, hslug]
      _ = "arbiter/fix-the-bug-in-auth-" ++ toBase36 now := by
          rw [strAppend_assoc, strAppend_assoc]
          rfl
  · intro description
    have : (slugify description).length =
        (((((description.toList.map Char.toLower).map
          (fun c => if isLowerAlnum c then c else '-')) |> squeezeDashes
          |>.dropWhile (fun c => c = '-')).reverse.dropWhile
          (fun c => c = '-')).reverse.take 30).length := rfl
    rw [this, List.length_take]
    exact Nat.min_le_left _ _

end OmegaArbiter
